import Mathlib

/-!
Verification of the in-memory CRUD item service (`src/main.py`).

The service keeps a module-level dictionary `fake_db : Dict[str, Item]` and
exposes five HTTP handlers: `create_item`, `read_items`, `read_item`,
`update_item`, `delete_item`.  We embed the Python dictionary as an
insertion-ordered association list (`Store`) whose `insert` replaces an
existing binding in place and appends a new one at the end, and whose
`erase` removes the binding for a key — exactly the observable behaviour of
a CPython `dict` under `d[k] = v` and `del d[k]`.

Every handler becomes a pure function taking the current store and
returning the HTTP-level outcome (`Except HTTPException α`, mirroring
`raise HTTPException(...)` vs. a normal `return`) together with the store
after the call (mirroring the mutation of the global `fake_db`).

The `uuid.uuid4()` call of `create_item` is nondeterministic; we pass the
generated string as an explicit argument and, where a claim depends on the
guarantees of the uuid library (freshness, non-emptiness), we take those as
hypotheses.  Python `float` values are only stored and compared by the
service, never computed with, so we embed them as `Rat`.
-/

namespace ItemsApi

/-- Embedding of Python `float` for values the service only stores and
compares (price, tax): no arithmetic is ever performed on them. -/
abbrev PyFloat := Rat

/-- Pydantic model `ItemCreate` (`src/main.py` lines 12–16): the request
body for POST and PUT.  `description` and `tax` are `Optional` with
default `None`, which Pydantic materialises as explicit `None` values in
`item.dict()`; hence plain `Option` fields. -/
structure ItemCreate where
  name : String
  description : Option String
  price : PyFloat
  tax : Option PyFloat
deriving DecidableEq, Repr

/-- Pydantic model `Item` (`src/main.py` lines 19–24): the stored and
returned record, `ItemCreate` plus the server-assigned `id`. -/
structure Item where
  id : String
  name : String
  description : Option String
  price : PyFloat
  tax : Option PyFloat
deriving DecidableEq, Repr

/-- `fastapi.HTTPException`: the status code and detail message carried by
a `raise HTTPException(status_code=..., detail=...)`. -/
structure HTTPException where
  status_code : Nat
  detail : String
deriving DecidableEq, Repr

/-- The JSON object `{"message": ...}` returned by `delete_item`. -/
structure Message where
  message : String
deriving DecidableEq, Repr

/-- The in-memory database `fake_db : Dict[str, Item]` (`src/main.py`
line 39), embedded as an insertion-ordered association list. -/
abbrev Store := List (String × Item)

/-- Python `d[k]` / `k in d`: first (and, for a genuine dict state, only)
binding of the key. -/
def Store.find? : Store → String → Option Item
  | [], _ => none
  | (k', v') :: rest, k => if k' = k then some v' else Store.find? rest k

/-- Python `d[k] = v`: replace the binding in place if the key is present,
otherwise append the new binding at the end (CPython insertion order). -/
def Store.insert : Store → String → Item → Store
  | [], k, v => [(k, v)]
  | (k', v') :: rest, k, v =>
    if k' = k then (k, v) :: rest else (k', v') :: Store.insert rest k v

/-- Python `del d[k]`: remove the binding of the key. -/
def Store.erase : Store → String → Store
  | [], _ => []
  | (k', v') :: rest, k =>
    if k' = k then rest else (k', v') :: Store.erase rest k

/-- Python `list(d.values())`. -/
def Store.values (db : Store) : List Item := db.map Prod.snd

/-- Python `list(d.keys())`. -/
def Store.keys (db : Store) : List String := db.map Prod.fst

/-- The exception raised by `read_item`, `update_item` and `delete_item`
when the id is absent: `HTTPException(status.HTTP_404_NOT_FOUND,
"Elemento no encontrado")`. -/
def notFound : HTTPException :=
  { status_code := 404, detail := "Elemento no encontrado" }

/-- The expression `Item(id=item_id, **item.dict())` (`src/main.py`
lines 58 and 118): a full record rebuilt from the request body plus the
given id. -/
def Item.ofCreate (item_id : String) (item : ItemCreate) : Item :=
  { id := item_id, name := item.name, description := item.description,
    price := item.price, tax := item.tax }

/-- POST `/items/` (`src/main.py` lines 43–60).  `item_id` stands for the
`str(uuid.uuid4())` drawn at line 57.  Builds
`Item(id=item_id, **item.dict())` and stores it under `item_id`. -/
def create_item (fake_db : Store) (item_id : String) (item : ItemCreate) :
    Except HTTPException Item × Store :=
  let new_item : Item := Item.ofCreate item_id item
  (Except.ok new_item, Store.insert fake_db item_id new_item)

/-- Declared success status of the POST route: `status.HTTP_201_CREATED`
(`src/main.py` line 46). -/
def create_item_status_code : Nat := 201

/-- GET `/items/` (`src/main.py` lines 62–74): returns
`list(fake_db.values())` and does not touch the store. -/
def read_items (fake_db : Store) :
    Except HTTPException (List Item) × Store :=
  (Except.ok (Store.values fake_db), fake_db)

/-- Success status of the GET-collection route (FastAPI default, no
`status_code` argument in the decorator). -/
def read_items_status_code : Nat := 200

/-- GET `/items/{item_id}` (`src/main.py` lines 76–95): raises 404 when
`item_id not in fake_db`, otherwise returns `fake_db[item_id]`. -/
def read_item (fake_db : Store) (item_id : String) :
    Except HTTPException Item × Store :=
  match Store.find? fake_db item_id with
  | none => (Except.error notFound, fake_db)
  | some it => (Except.ok it, fake_db)

/-- Success status of the GET-single route (FastAPI default, no
`status_code` argument in the decorator). -/
def read_item_status_code : Nat := 200

/-- PUT `/items/{item_id}` (`src/main.py` lines 97–120): raises 404 when
the id is absent, otherwise builds `Item(id=item_id, **item.dict())` —
a full rebuild from the request body, not a merge — stores it, and
returns it. -/
def update_item (fake_db : Store) (item_id : String) (item : ItemCreate) :
    Except HTTPException Item × Store :=
  match Store.find? fake_db item_id with
  | none => (Except.error notFound, fake_db)
  | some _ =>
    let updated_item : Item := Item.ofCreate item_id item
    (Except.ok updated_item, Store.insert fake_db item_id updated_item)

/-- Success status of the PUT route (FastAPI default, no `status_code`
argument in the decorator). -/
def update_item_status_code : Nat := 200

/-- DELETE `/items/{item_id}` (`src/main.py` lines 122–142): raises 404
when the id is absent, otherwise executes `del fake_db[item_id]` and
returns `{"message": "Elemento eliminado exitosamente"}`. -/
def delete_item (fake_db : Store) (item_id : String) :
    Except HTTPException Message × Store :=
  match Store.find? fake_db item_id with
  | none => (Except.error notFound, fake_db)
  | some _ =>
    (Except.ok { message := "Elemento eliminado exitosamente" },
     Store.erase fake_db item_id)

/-- Declared status of the DELETE route: `status.HTTP_204_NO_CONTENT`
(`src/main.py` line 124). -/
def delete_item_status_code : Nat := 204

/-! ### Basic store lemmas -/

theorem find?_insert_self (db : Store) (k : String) (v : Item) :
    Store.find? (Store.insert db k v) k = some v := by
  induction db with
  | nil => simp [Store.insert, Store.find?]
  | cons hd tl ih =>
    obtain ⟨k', v'⟩ := hd
    by_cases h : k' = k
    · simp [Store.insert, Store.find?, h]
    · simp [Store.insert, Store.find?, h, ih]

theorem find?_insert_ne (db : Store) (k k' : String) (v : Item)
    (h : k' ≠ k) :
    Store.find? (Store.insert db k v) k' = Store.find? db k' := by
  have h' : ¬ k = k' := fun e => h e.symm
  induction db with
  | nil => simp [Store.insert, Store.find?, h']
  | cons hd tl ih =>
    obtain ⟨k₀, v₀⟩ := hd
    by_cases h0 : k₀ = k
    · subst h0
      simp only [Store.insert, if_pos rfl, Store.find?, if_neg h']
    · simp only [Store.insert, if_neg h0, Store.find?]
      by_cases h1 : k₀ = k'
      · simp [h1]
      · simp [h1, ih]

theorem length_insert_of_not_mem (db : Store) (k : String) (v : Item)
    (h : Store.find? db k = none) :
    (Store.insert db k v).length = db.length + 1 := by
  induction db with
  | nil => simp [Store.insert]
  | cons hd tl ih =>
    obtain ⟨k₀, v₀⟩ := hd
    by_cases h0 : k₀ = k
    · simp [Store.find?, h0] at h
    · simp [Store.find?, h0] at h
      simp [Store.insert, h0, ih h]

theorem find?_eq_none_of_not_mem_keys (db : Store) (k : String)
    (h : k ∉ Store.keys db) : Store.find? db k = none := by
  induction db with
  | nil => rfl
  | cons hd tl ih =>
    obtain ⟨k₀, v₀⟩ := hd
    unfold Store.keys at h
    rw [List.map_cons, List.mem_cons] at h
    push_neg at h
    have h1 : ¬ k₀ = k := fun e => h.1 e.symm
    simp only [Store.find?, if_neg h1]
    exact ih h.2

theorem find?_erase_self (db : Store) (k : String)
    (hnd : (Store.keys db).Nodup) :
    Store.find? (Store.erase db k) k = none := by
  induction db with
  | nil => rfl
  | cons hd tl ih =>
    obtain ⟨k₀, v₀⟩ := hd
    unfold Store.keys at hnd
    rw [List.map_cons, List.nodup_cons] at hnd
    by_cases h0 : k₀ = k
    · subst h0
      simp only [Store.erase, if_pos rfl]
      exact find?_eq_none_of_not_mem_keys tl k₀ hnd.1
    · simp only [Store.erase, if_neg h0, Store.find?, if_neg h0]
      exact ih hnd.2

theorem find?_erase_ne (db : Store) (k k' : String) (h : k' ≠ k) :
    Store.find? (Store.erase db k) k' = Store.find? db k' := by
  induction db with
  | nil => rfl
  | cons hd tl ih =>
    obtain ⟨k₀, v₀⟩ := hd
    by_cases h0 : k₀ = k
    · subst h0
      have h1 : ¬ k₀ = k' := fun e => h e.symm
      simp only [Store.erase, eq_self_iff_true, if_true, Store.find?, if_neg h1]
    · simp only [Store.erase, if_neg h0, Store.find?]
      by_cases h1 : k₀ = k'
      · simp [h1]
      · simp [h1, ih]

theorem mem_insert_elim (db : Store) (k : String) (v : Item)
    (p : String × Item) (hp : p ∈ Store.insert db k v) :
    p = (k, v) ∨ p ∈ db := by
  induction db with
  | nil =>
    simp [Store.insert] at hp
    exact Or.inl hp
  | cons hd tl ih =>
    obtain ⟨k₀, v₀⟩ := hd
    by_cases h0 : k₀ = k
    · simp only [Store.insert, if_pos h0, List.mem_cons] at hp
      rcases hp with hp | hp
      · exact Or.inl hp
      · exact Or.inr (List.mem_cons_of_mem _ hp)
    · simp only [Store.insert, if_neg h0, List.mem_cons] at hp
      rcases hp with hp | hp
      · exact Or.inr (hp ▸ List.mem_cons_self _ _)
      · rcases ih hp with h | h
        · exact Or.inl h
        · exact Or.inr (List.mem_cons_of_mem _ h)

theorem mem_keys_insert (db : Store) (k : String) (v : Item)
    (a : String) (ha : a ∈ Store.keys (Store.insert db k v)) :
    a = k ∨ a ∈ Store.keys db := by
  unfold Store.keys at ha ⊢
  rw [List.mem_map] at ha
  obtain ⟨p, hp, hpa⟩ := ha
  rcases mem_insert_elim db k v p hp with h | h
  · exact Or.inl (by rw [← hpa, h])
  · exact Or.inr (hpa ▸ List.mem_map_of_mem Prod.fst h)

theorem nodup_keys_insert (db : Store) (k : String) (v : Item)
    (hnd : (Store.keys db).Nodup) :
    (Store.keys (Store.insert db k v)).Nodup := by
  induction db with
  | nil => simp [Store.insert, Store.keys]
  | cons hd tl ih =>
    obtain ⟨k₀, v₀⟩ := hd
    unfold Store.keys at hnd
    rw [List.map_cons, List.nodup_cons] at hnd
    by_cases h0 : k₀ = k
    · subst h0
      unfold Store.keys
      simp only [Store.insert, eq_self_iff_true, if_true, List.map_cons,
        List.nodup_cons]
      exact hnd
    · unfold Store.keys
      simp only [Store.insert, if_neg h0, List.map_cons, List.nodup_cons]
      refine ⟨?_, ih hnd.2⟩
      intro hmem
      rcases mem_keys_insert tl k v k₀ hmem with h | h
      · exact h0 h
      · exact hnd.1 h

theorem erase_sublist (db : Store) (k : String) :
    List.Sublist (Store.erase db k) db := by
  induction db with
  | nil => simp [Store.erase]
  | cons hd tl ih =>
    obtain ⟨k₀, v₀⟩ := hd
    by_cases h0 : k₀ = k
    · simp only [Store.erase, if_pos h0]
      exact List.sublist_cons_self _ _
    · simp only [Store.erase, if_neg h0]
      exact List.Sublist.cons₂ _ ih

theorem mem_of_mem_erase (db : Store) (k : String) (p : String × Item)
    (hp : p ∈ Store.erase db k) : p ∈ db :=
  (erase_sublist db k).mem hp

theorem nodup_keys_erase (db : Store) (k : String)
    (hnd : (Store.keys db).Nodup) :
    (Store.keys (Store.erase db k)).Nodup :=
  List.Nodup.sublist (List.Sublist.map Prod.fst (erase_sublist db k)) hnd

theorem mem_values_of_find? (db : Store) (k : String) (v : Item)
    (h : Store.find? db k = some v) : v ∈ Store.values db := by
  induction db with
  | nil => simp [Store.find?] at h
  | cons hd tl ih =>
    obtain ⟨k₀, v₀⟩ := hd
    by_cases h0 : k₀ = k
    · simp only [Store.find?, if_pos h0] at h
      injection h with h
      simp [Store.values, h]
    · simp only [Store.find?, if_neg h0] at h
      simp [Store.values]
      right
      simpa [Store.values] using ih h

theorem read_item_state (db : Store) (k : String) :
    (read_item db k).2 = db := by
  cases h : Store.find? db k <;> simp [read_item, h]

/-! ### Sequences of POST requests -/

/-- A sequence of POST `/items/` calls: each list element carries the id
drawn by `uuid.uuid4()` for that call and the request body. -/
def createMany (db : Store) : List (String × ItemCreate) → Store
  | [] => db
  | (gid, inp) :: rest => createMany (create_item db gid inp).2 rest

theorem createMany_length (pairs : List (String × ItemCreate)) (db : Store)
    (hfresh : ∀ p ∈ pairs, Store.find? db p.1 = none)
    (hnd : (pairs.map Prod.fst).Nodup) :
    (createMany db pairs).length = db.length + pairs.length := by
  induction pairs generalizing db with
  | nil => simp [createMany]
  | cons hd tl ih =>
    obtain ⟨gid, inp⟩ := hd
    rw [List.map_cons, List.nodup_cons] at hnd
    have h0 : Store.find? db gid = none := hfresh _ (List.mem_cons_self _ _)
    have hstep : (create_item db gid inp).2 =
        Store.insert db gid (Item.ofCreate gid inp) := rfl
    have hfresh' : ∀ p ∈ tl, Store.find? (create_item db gid inp).2 p.1 = none := by
      intro p hp
      rw [hstep, find?_insert_ne]
      · exact hfresh p (List.mem_cons_of_mem _ hp)
      · intro e
        have hm : p.1 ∈ tl.map Prod.fst := List.mem_map_of_mem Prod.fst hp
        rw [e] at hm
        exact hnd.1 hm
    calc (createMany db ((gid, inp) :: tl)).length
        = (createMany (create_item db gid inp).2 tl).length := rfl
      _ = (create_item db gid inp).2.length + tl.length := ih _ hfresh' hnd.2
      _ = (db.length + 1) + tl.length := by
          rw [hstep, length_insert_of_not_mem db gid _ h0]
      _ = db.length + ((gid, inp) :: tl).length := by
          rw [List.length_cons]; omega

theorem find?_createMany_not_mem (pairs : List (String × ItemCreate))
    (db : Store) (k : String) (hk : k ∉ pairs.map Prod.fst) :
    Store.find? (createMany db pairs) k = Store.find? db k := by
  induction pairs generalizing db with
  | nil => rfl
  | cons hd tl ih =>
    obtain ⟨gid, inp⟩ := hd
    rw [List.map_cons, List.mem_cons] at hk
    push_neg at hk
    calc Store.find? (createMany (create_item db gid inp).2 tl) k
        = Store.find? (create_item db gid inp).2 k := ih _ hk.2
      _ = Store.find? db k := find?_insert_ne db gid k _ hk.1

theorem find?_createMany_of_mem (pairs : List (String × ItemCreate))
    (db : Store) (p : String × ItemCreate) (hp : p ∈ pairs)
    (hnd : (pairs.map Prod.fst).Nodup) :
    Store.find? (createMany db pairs) p.1 = some (Item.ofCreate p.1 p.2) := by
  obtain ⟨g, i⟩ := p
  induction pairs generalizing db with
  | nil => simp at hp
  | cons hd tl ih =>
    obtain ⟨gid, inp⟩ := hd
    rw [List.map_cons, List.nodup_cons] at hnd
    rw [List.mem_cons] at hp
    rcases hp with hp | hp
    · rw [Prod.mk.injEq] at hp
      obtain ⟨h1, h2⟩ := hp
      subst h1
      subst h2
      have hni : g ∉ tl.map Prod.fst := hnd.1
      calc Store.find? (createMany (create_item db g i).2 tl) g
          = Store.find? (create_item db g i).2 g :=
            find?_createMany_not_mem tl _ g hni
        _ = some (Item.ofCreate g i) := find?_insert_self db g _
    · exact ih _ hnd.2 hp

/-! ### Reachable states and the key/id invariant -/

/-- The stores reachable from the initial empty `fake_db` by any sequence
of handler calls (with arbitrary arguments and generated ids). -/
inductive Reachable : Store → Prop
  | empty : Reachable []
  | create (db : Store) (gid : String) (inp : ItemCreate) :
      Reachable db → Reachable (create_item db gid inp).2
  | read_one (db : Store) (k : String) :
      Reachable db → Reachable (read_item db k).2
  | read_all (db : Store) :
      Reachable db → Reachable (read_items db).2
  | update (db : Store) (k : String) (inp : ItemCreate) :
      Reachable db → Reachable (update_item db k inp).2
  | delete (db : Store) (k : String) :
      Reachable db → Reachable (delete_item db k).2

/-- The representation invariant of `fake_db`: each stored record's `id`
field equals its dictionary key, and the keys are pairwise distinct. -/
def StoreInv (db : Store) : Prop :=
  (∀ p ∈ db, (Prod.snd p).id = Prod.fst p) ∧ (Store.keys db).Nodup

theorem storeInv_insert (db : Store) (k : String) (v : Item)
    (hv : v.id = k) (h : StoreInv db) : StoreInv (Store.insert db k v) := by
  constructor
  · intro p hp
    rcases mem_insert_elim db k v p hp with hpe | hpm
    · rw [hpe]
      exact hv
    · exact h.1 p hpm
  · exact nodup_keys_insert db k v h.2

theorem storeInv_erase (db : Store) (k : String)
    (h : StoreInv db) : StoreInv (Store.erase db k) := by
  constructor
  · intro p hp
    exact h.1 p (mem_of_mem_erase db k p hp)
  · exact nodup_keys_erase db k h.2

/-! ### Example fixtures used by the witness theorems -/

def pen : ItemCreate :=
  { name := "Pen", description := none, price := 2, tax := none }

def pen2 : ItemCreate :=
  { name := "Pen2", description := some "blue", price := 3, tax := some 1 }

def exDb : Store := [("a", Item.ofCreate "a" pen)]

/-! ### The claims -/

/-- C1: for every existing id and every valid input, `update_item` fully
replaces every field of the stored record except `id` (the result is
exactly `Item(id=item_id, **item.dict())`, so omitted optional fields
become their defaults rather than being merged with the old record),
preserves the id, and returns the updated record; a subsequent
`read_item` on the same id returns exactly the new input's fields. -/
theorem update_item_full_replace (db : Store) (item_id : String)
    (inp : ItemCreate) (h : Store.find? db item_id ≠ none) :
    (update_item db item_id inp).1 = Except.ok (Item.ofCreate item_id inp) ∧
    (Item.ofCreate item_id inp).id = item_id ∧
    (Item.ofCreate item_id inp).name = inp.name ∧
    (Item.ofCreate item_id inp).description = inp.description ∧
    (Item.ofCreate item_id inp).price = inp.price ∧
    (Item.ofCreate item_id inp).tax = inp.tax ∧
    (read_item (update_item db item_id inp).2 item_id).1 =
      Except.ok (Item.ofCreate item_id inp) := by
  obtain ⟨it, hit⟩ := Option.ne_none_iff_exists'.mp h
  refine ⟨?_, rfl, rfl, rfl, rfl, rfl, ?_⟩
  · simp [update_item, hit]
  · simp [update_item, hit, read_item, find?_insert_self]

/-- Witness for C1: updating the record stored under `"a"` with the body
`pen2` replaces every field and is what a subsequent get returns. -/
theorem update_item_full_replace_witness :
    (update_item exDb "a" pen2).1 = Except.ok (Item.ofCreate "a" pen2) ∧
    (Item.ofCreate "a" pen2).id = "a" ∧
    (Item.ofCreate "a" pen2).name = pen2.name ∧
    (Item.ofCreate "a" pen2).description = pen2.description ∧
    (Item.ofCreate "a" pen2).price = pen2.price ∧
    (Item.ofCreate "a" pen2).tax = pen2.tax ∧
    (read_item (update_item exDb "a" pen2).2 "a").1 =
      Except.ok (Item.ofCreate "a" pen2) :=
  update_item_full_replace exDb "a" pen2 (by decide)

/-- C2: for every valid creation payload and store state, `create_item`
(called with a generated id that the uuid library guarantees non-empty
and previously unseen) returns a record whose id is that fresh non-empty
string, whose payload fields equal the input's, and an immediately
subsequent `read_item` on that id returns a record identical to the one
returned. -/
theorem create_item_roundtrip (db : Store) (gid : String) (inp : ItemCreate)
    (hfresh : Store.find? db gid = none) (hne : gid ≠ "") :
    (create_item db gid inp).1 = Except.ok (Item.ofCreate gid inp) ∧
    (Item.ofCreate gid inp).id = gid ∧
    (Item.ofCreate gid inp).id ≠ "" ∧
    Store.find? db (Item.ofCreate gid inp).id = none ∧
    (Item.ofCreate gid inp).name = inp.name ∧
    (Item.ofCreate gid inp).description = inp.description ∧
    (Item.ofCreate gid inp).price = inp.price ∧
    (Item.ofCreate gid inp).tax = inp.tax ∧
    (read_item (create_item db gid inp).2 gid).1 =
      Except.ok (Item.ofCreate gid inp) := by
  refine ⟨rfl, rfl, hne, hfresh, rfl, rfl, rfl, rfl, ?_⟩
  simp [create_item, read_item, find?_insert_self]

/-- Witness for C2: creating `pen` in the empty store under the fresh id
`"b7f9"` round-trips through a get. -/
theorem create_item_roundtrip_witness :
    (create_item [] "b7f9" pen).1 = Except.ok (Item.ofCreate "b7f9" pen) ∧
    (Item.ofCreate "b7f9" pen).id = "b7f9" ∧
    (Item.ofCreate "b7f9" pen).id ≠ "" ∧
    Store.find? [] (Item.ofCreate "b7f9" pen).id = none ∧
    (Item.ofCreate "b7f9" pen).name = pen.name ∧
    (Item.ofCreate "b7f9" pen).description = pen.description ∧
    (Item.ofCreate "b7f9" pen).price = pen.price ∧
    (Item.ofCreate "b7f9" pen).tax = pen.tax ∧
    (read_item (create_item [] "b7f9" pen).2 "b7f9").1 =
      Except.ok (Item.ofCreate "b7f9" pen) :=
  create_item_roundtrip [] "b7f9" pen rfl (by decide)

/-- C4: `read_item` succeeds (HTTP 200, returning the stored record) if
and only if the id is a key of the store, and fails with the 404
`HTTPException` if and only if the id is absent; in particular a get on
any id never created fails with 404. -/
theorem read_item_spec (db : Store) (item_id : String) :
    read_item_status_code = 200 ∧
    notFound.status_code = 404 ∧
    ((∃ it, Store.find? db item_id = some it ∧
        (read_item db item_id).1 = Except.ok it) ↔
      Store.find? db item_id ≠ none) ∧
    ((read_item db item_id).1 = Except.error notFound ↔
      Store.find? db item_id = none) := by
  refine ⟨rfl, rfl, ?_, ?_⟩ <;>
    cases h : Store.find? db item_id <;> simp [read_item, h]

/-- C5: on successful deletion of an existing id the route's declared
status is 204 while the handler nevertheless returns a non-empty JSON
confirmation message. -/
theorem delete_item_response (db : Store) (item_id : String)
    (h : Store.find? db item_id ≠ none) :
    delete_item_status_code = 204 ∧
    (delete_item db item_id).1 =
      Except.ok { message := "Elemento eliminado exitosamente" } ∧
    ({ message := "Elemento eliminado exitosamente" } : Message).message ≠ "" := by
  obtain ⟨it, hit⟩ := Option.ne_none_iff_exists'.mp h
  exact ⟨rfl, by simp [delete_item, hit], by decide⟩

/-- Witness for C5: deleting the existing id `"a"` yields the declared
204 status together with the non-empty confirmation payload. -/
theorem delete_item_response_witness :
    delete_item_status_code = 204 ∧
    (delete_item exDb "a").1 =
      Except.ok { message := "Elemento eliminado exitosamente" } ∧
    ({ message := "Elemento eliminado exitosamente" } : Message).message ≠ "" :=
  delete_item_response exDb "a" (by decide)

/-- C7: on an id absent from the store, `update_item` (for every input)
and `delete_item` both fail with the 404 `HTTPException` and leave the
store completely unchanged. -/
theorem not_found_atomicity (db : Store) (item_id : String)
    (inp : ItemCreate) (h : Store.find? db item_id = none) :
    (update_item db item_id inp).1 = Except.error notFound ∧
    (update_item db item_id inp).2 = db ∧
    (delete_item db item_id).1 = Except.error notFound ∧
    (delete_item db item_id).2 = db ∧
    notFound.status_code = 404 := by
  simp [update_item, delete_item, h, notFound]

/-- Witness for C7: updating or deleting the never-created id `"zzz"`
fails with 404 and leaves the example store unchanged. -/
theorem not_found_atomicity_witness :
    (update_item exDb "zzz" pen).1 = Except.error notFound ∧
    (update_item exDb "zzz" pen).2 = exDb ∧
    (delete_item exDb "zzz").1 = Except.error notFound ∧
    (delete_item exDb "zzz").2 = exDb ∧
    notFound.status_code = 404 :=
  not_found_atomicity exDb "zzz" pen (by decide)

/-- C3: deleting an id present in the store removes exactly that binding
(the resulting store is the erasure of that key, other keys are
untouched), so that a subsequent get and a subsequent delete on the same
id both fail with the 404 `HTTPException`; deleting an id absent from
the store fails with the 404 `HTTPException`.  The hypothesis `hnd` is
the dictionary representation invariant (keys of `fake_db` are pairwise
distinct), which holds in every reachable state. -/
theorem delete_item_spec (db : Store) (item_id : String)
    (hnd : (Store.keys db).Nodup) :
    (Store.find? db item_id ≠ none →
      (delete_item db item_id).2 = Store.erase db item_id ∧
      Store.find? (delete_item db item_id).2 item_id = none ∧
      (∀ k, k ≠ item_id →
        Store.find? (delete_item db item_id).2 k = Store.find? db k) ∧
      (read_item (delete_item db item_id).2 item_id).1 =
        Except.error notFound ∧
      (delete_item (delete_item db item_id).2 item_id).1 =
        Except.error notFound) ∧
    (Store.find? db item_id = none →
      (delete_item db item_id).1 = Except.error notFound) := by
  constructor
  · intro h
    obtain ⟨it, hit⟩ := Option.ne_none_iff_exists'.mp h
    have h2 : (delete_item db item_id).2 = Store.erase db item_id := by
      simp [delete_item, hit]
    have hnone : Store.find? (Store.erase db item_id) item_id = none :=
      find?_erase_self db item_id hnd
    refine ⟨h2, ?_, ?_, ?_, ?_⟩
    · rw [h2]
      exact hnone
    · intro k hk
      rw [h2]
      exact find?_erase_ne db item_id k hk
    · rw [h2]
      simp [read_item, hnone]
    · rw [h2]
      simp [delete_item, hnone]
  · intro h
    simp [delete_item, h]

/-- Witness for C3: deleting the existing id `"a"` erases exactly that
binding, the follow-up get and delete on `"a"` report 404, and deleting
the never-created id `"q"` reports 404. -/
theorem delete_item_spec_witness :
    (delete_item exDb "a").2 = Store.erase exDb "a" ∧
    Store.find? (delete_item exDb "a").2 "a" = none ∧
    Store.find? (delete_item exDb "a").2 "b" = Store.find? exDb "b" ∧
    (read_item (delete_item exDb "a").2 "a").1 = Except.error notFound ∧
    (delete_item (delete_item exDb "a").2 "a").1 = Except.error notFound ∧
    (delete_item exDb "q").1 = Except.error notFound := by
  have h := (delete_item_spec exDb "a" (by decide)).1 (by decide)
  have habs := (delete_item_spec exDb "q" (by decide)).2 (by decide)
  exact ⟨h.1, h.2.1, h.2.2.1 "b" (by decide), h.2.2.2.1, h.2.2.2.2, habs⟩

/-- C6: starting from the empty store, after a sequence of N create calls
(whose generated uuids are pairwise distinct) and no deletes, the list
endpoint returns exactly the stored records — N of them, one for each
create performed. -/
theorem list_after_creates (pairs : List (String × ItemCreate))
    (hnd : (pairs.map Prod.fst).Nodup) :
    (read_items (createMany [] pairs)).1 =
      Except.ok (Store.values (createMany [] pairs)) ∧
    (Store.values (createMany [] pairs)).length = pairs.length ∧
    (∀ p ∈ pairs,
      Item.ofCreate p.1 p.2 ∈ Store.values (createMany [] pairs)) := by
  refine ⟨rfl, ?_, ?_⟩
  · have h := createMany_length pairs [] (fun p _ => rfl) hnd
    simpa [Store.values] using h
  · intro p hp
    exact mem_values_of_find? _ p.1 _ (find?_createMany_of_mem pairs [] p hp hnd)

/-- Witness for C6: two creates from the empty store make the list
endpoint return exactly the two stored records. -/
theorem list_after_creates_witness :
    (read_items (createMany [] [("a", pen), ("b", pen2)])).1 =
      Except.ok (Store.values (createMany [] [("a", pen), ("b", pen2)])) ∧
    (Store.values (createMany [] [("a", pen), ("b", pen2)])).length = 2 ∧
    Item.ofCreate "a" pen ∈
      Store.values (createMany [] [("a", pen), ("b", pen2)]) := by
  have h := list_after_creates [("a", pen), ("b", pen2)] (by decide)
  exact ⟨h.1, h.2.1, h.2.2 ("a", pen) (by decide)⟩

/-- C8: create performs no duplicate-name checking — creating two items
with the same name succeeds both times, the two generated ids are
distinct, and both records are afterwards present in the list
endpoint's output. -/
theorem create_no_duplicate_name_check (db : Store) (g1 g2 : String)
    (inp1 inp2 : ItemCreate) (hname : inp1.name = inp2.name)
    (h1 : Store.find? db g1 = none)
    (h2 : Store.find? (create_item db g1 inp1).2 g2 = none) :
    (create_item db g1 inp1).1 = Except.ok (Item.ofCreate g1 inp1) ∧
    (create_item (create_item db g1 inp1).2 g2 inp2).1 =
      Except.ok (Item.ofCreate g2 inp2) ∧
    g1 ≠ g2 ∧
    Item.ofCreate g1 inp1 ∈
      Store.values (create_item (create_item db g1 inp1).2 g2 inp2).2 ∧
    Item.ofCreate g2 inp2 ∈
      Store.values (create_item (create_item db g1 inp1).2 g2 inp2).2 := by
  have hne : g1 ≠ g2 := by
    intro e
    rw [← e] at h2
    have hs : Store.find? (create_item db g1 inp1).2 g1 =
        some (Item.ofCreate g1 inp1) := find?_insert_self db g1 _
    rw [hs] at h2
    exact Option.some_ne_none _ h2
  refine ⟨rfl, rfl, hne, ?_, ?_⟩
  · apply mem_values_of_find? _ g1
    have hr : Store.find?
        (create_item (create_item db g1 inp1).2 g2 inp2).2 g1 =
        Store.find? (create_item db g1 inp1).2 g1 :=
      find?_insert_ne _ g2 g1 _ hne
    rw [hr]
    exact find?_insert_self db g1 _
  · exact mem_values_of_find? _ g2 _ (find?_insert_self _ g2 _)

/-- Witness for C8: creating `pen` twice (same name) under the fresh ids
`"a"` and `"b"` succeeds both times, yields distinct ids, and both
records appear in the listing. -/
theorem create_no_duplicate_name_check_witness :
    (create_item [] "a" pen).1 = Except.ok (Item.ofCreate "a" pen) ∧
    (create_item (create_item [] "a" pen).2 "b" pen).1 =
      Except.ok (Item.ofCreate "b" pen) ∧
    "a" ≠ "b" ∧
    Item.ofCreate "a" pen ∈
      Store.values (create_item (create_item [] "a" pen).2 "b" pen).2 ∧
    Item.ofCreate "b" pen ∈
      Store.values (create_item (create_item [] "a" pen).2 "b" pen).2 :=
  create_no_duplicate_name_check [] "a" "b" pen pen rfl rfl (by decide)

/-- C9: the id of a stored record is immutable under update — whatever is
stored under a key after `update_item` still carries that key as its
`id`, and bindings at other keys are untouched — while the two read
endpoints return the store unchanged. -/
theorem id_immutable_and_reads_pure (db : Store) (item_id k : String)
    (inp : ItemCreate) :
    (∀ it, Store.find? (update_item db item_id inp).2 item_id = some it →
      it.id = item_id) ∧
    (k ≠ item_id →
      Store.find? (update_item db item_id inp).2 k = Store.find? db k) ∧
    (read_item db k).2 = db ∧
    (read_items db).2 = db := by
  refine ⟨?_, ?_, read_item_state db k, rfl⟩
  · intro it hit
    cases h : Store.find? db item_id with
    | none =>
      have hdb : (update_item db item_id inp).2 = db := by
        simp [update_item, h]
      rw [hdb, h] at hit
      simp at hit
    | some old =>
      have hdb : (update_item db item_id inp).2 =
          Store.insert db item_id (Item.ofCreate item_id inp) := by
        simp [update_item, h]
      rw [hdb, find?_insert_self] at hit
      injection hit with hit
      rw [← hit]
      rfl
  · intro hk
    cases h : Store.find? db item_id with
    | none => simp [update_item, h]
    | some old =>
      have hdb : (update_item db item_id inp).2 =
          Store.insert db item_id (Item.ofCreate item_id inp) := by
        simp [update_item, h]
      rw [hdb]
      exact find?_insert_ne db item_id k _ hk

/-- Witness for C9: after updating `"a"` the record stored there still has
id `"a"`, the binding at `"b"` is untouched, and the reads leave the
example store unchanged. -/
theorem id_immutable_and_reads_pure_witness :
    (Item.ofCreate "a" pen2).id = "a" ∧
    Store.find? (update_item exDb "a" pen2).2 "b" = Store.find? exDb "b" ∧
    (read_item exDb "b").2 = exDb ∧
    (read_items exDb).2 = exDb := by
  have h := id_immutable_and_reads_pure exDb "a" "b" pen2
  exact ⟨h.1 (Item.ofCreate "a" pen2) (by decide), h.2.1 (by decide),
    h.2.2.1, h.2.2.2⟩

/-- C10: in every store reachable from the empty `fake_db` by handler
calls, each stored record's `id` field equals the dictionary key it is
stored under, and the keys are pairwise distinct; every operation
preserves this invariant. -/
theorem reachable_storeInv (db : Store) (h : Reachable db) : StoreInv db := by
  induction h with
  | empty => exact ⟨fun p hp => absurd hp (List.not_mem_nil p), List.nodup_nil⟩
  | create d gid inp _ ih => exact storeInv_insert d gid _ rfl ih
  | read_one d k _ ih =>
    rw [read_item_state d k]
    exact ih
  | read_all d _ ih => exact ih
  | update d k inp _ ih =>
    cases hf : Store.find? d k with
    | none =>
      have hdb : (update_item d k inp).2 = d := by simp [update_item, hf]
      rw [hdb]
      exact ih
    | some old =>
      have hdb : (update_item d k inp).2 =
          Store.insert d k (Item.ofCreate k inp) := by
        simp [update_item, hf]
      rw [hdb]
      exact storeInv_insert d k _ rfl ih
  | delete d k _ ih =>
    cases hf : Store.find? d k with
    | none =>
      have hdb : (delete_item d k).2 = d := by simp [delete_item, hf]
      rw [hdb]
      exact ih
    | some old =>
      have hdb : (delete_item d k).2 = Store.erase d k := by
        simp [delete_item, hf]
      rw [hdb]
      exact storeInv_erase d k ih

/-- Witness for C10: the store reached by one create from the empty store
satisfies the key/id invariant. -/
theorem reachable_storeInv_witness :
    StoreInv (create_item [] "a" pen).2 :=
  reachable_storeInv _ (Reachable.create [] "a" pen Reachable.empty)

end ItemsApi
